import Mathlib

/-!
Verification development for an email-monitoring NestJS service.

The repository polls an IMAP mailbox for unread messages with a fixed
subject line, parses each message, classifies it via an OpenAI call, renders
a console report, and records the message uid in an in-memory dedup set.

This file shallowly embeds the relevant code:
  * `EmailService.readEmailsBySubject` (the poll cycle) as `runCycle`, a
    function of the cycle's environment (server responses) producing the
    cycle outcome, the ordered event trace of observable actions, and the
    updated dedup ledger; the asynchronous semantics of the node event loop
    are embedded by placing the synchronous stream events (fetch delivery and
    the `attributes`-handler ledger add) before the deferred parser-callback
    events (parse, header render, classify, classification render).
  * `EmailService.startEmailMonitoring` / `stopEmailMonitoring` as state
    transitions on `ServiceState`.
  * `OpenAIService.onModuleInit` and `OpenAIService.testConnection`.
  * The report renderer's substitution literals and confidence banding.

JavaScript string truthiness (`||`, `!!`, `if (!x)`) is embedded by
`jsOr` / `jsTruthy`: `undefined`/absent and the empty string are falsy.
-/

namespace EmailApp

/-- JS `a || d` on an optional string `a`: `undefined` and `""` are falsy. -/
def jsOr (o : Option String) (d : String) : String :=
  match o with
  | none => d
  | some s => if s = "" then d else s

/-- JS `!!o` on an optional string: true exactly for a present, non-empty string. -/
def jsTruthy (o : Option String) : Bool :=
  match o with
  | none => false
  | some s => s != ""

/-- The structured result of `simpleParser` (mailparser), restricted to the
fields the service reads: `from?.text`, `to?.text`, `subject`, `date`,
`text` (plain body), `html` (markup body). Absent fields are `none`. -/
structure ParsedMessage where
  fromText : Option String
  toText : Option String
  subject : Option String
  date : Option String
  text : Option String
  html : Option String
deriving DecidableEq, Repr

/-- `const body = parsed.text || parsed.html || 'No content available';` -/
def selectBody (p : ParsedMessage) : String :=
  jsOr p.text (jsOr p.html "No content available")

/-- `` console.log(`From: ${parsed.from?.text || 'Unknown'}`) `` -/
def renderFromLine (p : ParsedMessage) : String :=
  "From: " ++ jsOr p.fromText "Unknown"

/-- `` console.log(`To: ${parsed.to?.text || 'Unknown'}`) `` -/
def renderToLine (p : ParsedMessage) : String :=
  "To: " ++ jsOr p.toText "Unknown"

/-- `` console.log(`Subject: ${parsed.subject || 'No Subject'}`) `` -/
def renderSubjectLine (p : ParsedMessage) : String :=
  "Subject: " ++ jsOr p.subject "No Subject"

/-- `` console.log(`Date: ${parsed.date || 'Unknown Date'}`) `` -/
def renderDateLine (p : ParsedMessage) : String :=
  "Date: " ++ jsOr p.date "Unknown Date"

/-- The `EmailClassification` interface of `openai.service.ts`:
classification label, confidence (0-100), reasoning, and the two ordered
indicator lists. -/
structure Classification where
  classification : String
  confidence : Nat
  reasoning : String
  systemIndicators : List String
  humanIndicators : List String
deriving DecidableEq, Repr

/-- The banding expression of the confidence line:
`classification.confidence >= 80 ? '(High)' : classification.confidence >= 60 ? '(Medium)' : '(Low)'`. -/
def confidenceLabel (c : Nat) : String :=
  if 80 ≤ c then "(High)" else if 60 ≤ c then "(Medium)" else "(Low)"

/-- `` `   Confidence: ${classification.confidence}% ${...banding...}` `` —
the renderer only reads the stored `Classification`; the displayed band is a
pure function of the stored confidence. -/
def renderConfidenceLine (cl : Classification) : String :=
  "   Confidence: " ++ toString cl.confidence ++ "% " ++ confidenceLabel cl.confidence

/-! ### OpenAIService -/

/-- One element of `response.choices`: an optional `message` with an optional
`content` string. -/
structure Choice where
  message : Option (Option String)
deriving DecidableEq, Repr

/-- The chat-completions response shape read by the service. -/
structure ChatResponse where
  choices : List Choice
deriving DecidableEq, Repr

/-- `response.choices[0]?.message?.content` — optional chaining over the
possibly-empty choices array. -/
def contentOf (resp : ChatResponse) : Option String :=
  resp.choices.head?.bind fun c => c.message.bind fun m => m

/-- `OpenAIService.testConnection`: the request either throws (caught, return
`false`) or yields a response; `hasResponse = !!response.choices[0]?.message?.content`
is returned. -/
def testConnection (r : Except String ChatResponse) : Bool :=
  match r with
  | .error _ => false
  | .ok resp => jsTruthy (contentOf resp)

/-- `OpenAIService.onModuleInit`: reads `process.env.OPENAI_API_KEY`
(`none` when the variable is absent) and throws
`'OPENAI_API_KEY is required'` when the key is falsy. -/
def onModuleInit (apiKey : Option String) : Except String Unit :=
  if jsTruthy apiKey then .ok () else .error "OPENAI_API_KEY is required"

/-! ### The poll cycle `readEmailsBySubject`

One cycle, driven by the environment: whether the connection, the mailbox
open and the search succeed; the search results (uids); the content of each
message the server streams; and whether the fetch stream errors mid-way.
The cycle produces an outcome (`resolve` / `reject`), an ordered trace of
observable events, and the updated `processedEmails` ledger. -/

/-- Environment-determined data of one fetched message: the outcome of
`simpleParser` on its bytes (`none` = the parser reported an error) and the
outcome of `openaiService.classifyEmail` (`none` = the call threw). -/
structure MsgData where
  parseOutcome : Option ParsedMessage
  classifyOutcome : Option Classification
deriving DecidableEq, Repr

/-- Observable events of one poll cycle, in trace order. -/
inductive Ev where
  /-- `playNotificationSound()` invoked. -/
  | notify : Ev
  /-- the fetch stream delivered the message with this uid. -/
  | fetchMsg : Nat → Ev
  /-- `attributes` handler: `processedEmails.add(attrs.uid.toString())`. -/
  | ledgerAdd : Nat → Ev
  /-- parser callback entered with a successfully parsed message. -/
  | parseMsg : Nat → Ev
  /-- parser callback entered with a parse error (logged, nothing rendered). -/
  | parseErr : Nat → Ev
  /-- provisional report header+body rendered to the console. -/
  | renderHeader : Nat → Ev
  /-- `classifyEmail` invoked for this uid. -/
  | classify : Nat → Ev
  /-- classification block rendered to the console. -/
  | renderClassification : Nat → Ev
  /-- classification error block rendered to the console. -/
  | renderClassError : Nat → Ev
  /-- `imap.end()` invoked. -/
  | sessionEnd : Ev
deriving DecidableEq, Repr

/-- The rejection reasons of a cycle, one per `reject(err)` site. -/
inductive CycleError where
  | connErr : CycleError
  | openBoxErr : CycleError
  | searchErr : CycleError
  | fetchErr : CycleError
deriving DecidableEq, Repr

/-- The environment of one poll cycle. `fetchErrorAfter = some k` means the
fetch stream emits `error` after delivering `k` messages; `none` means it
delivers everything and emits `end`. -/
structure CycleInput where
  manual : Bool
  connectOk : Bool
  openBoxOk : Bool
  searchOk : Bool
  searchResults : List Nat
  msgData : Nat → MsgData
  fetchErrorAfter : Option Nat

/-- Result of one poll cycle: promise outcome, event trace, updated ledger. -/
structure CycleResult where
  outcome : Except CycleError Unit
  events : List Ev
  processed : List String

/-- `Set.add` on the ledger (a JS `Set<string>`): no duplicates. -/
def setAdd (l : List String) (x : String) : List String :=
  if x ∈ l then l else x :: l

/-- Synchronous stream events of one delivered message: the `message` event
then the `attributes` handler's ledger add. -/
def syncEvents (uid : Nat) : List Ev :=
  [Ev.fetchMsg uid, Ev.ledgerAdd uid]

/-- Deferred parser-callback events of one delivered message: on parse error
log and return; otherwise render the header+body, call `classifyEmail`, and
render the classification block or the error block. -/
def deferredEvents (uid : Nat) (d : MsgData) : List Ev :=
  match d.parseOutcome with
  | none => [Ev.parseErr uid]
  | some _ =>
    [Ev.parseMsg uid, Ev.renderHeader uid, Ev.classify uid] ++
      (match d.classifyOutcome with
      | some _ => [Ev.renderClassification uid]
      | none => [Ev.renderClassError uid])

/-- `results.filter((uid) => !this.processedEmails.has(uid.toString()))`. -/
def newEmailsOf (results : List Nat) (ledger : List String) : List Nat :=
  results.filter fun uid => !(toString uid ∈ ledger : Bool)

/-- The messages the fetch stream delivers: all of `newEmails`, or the first
`k` of them when the stream errors after `k`. -/
def deliveredOf (inp : CycleInput) (newEmails : List Nat) : List Nat :=
  match inp.fetchErrorAfter with
  | none => newEmails
  | some k => newEmails.take k

/-- The event between the stream phase and the deferred parser callbacks:
`imap.end()` fires at stream `end`; nothing fires at stream `error`. -/
def midEvents (inp : CycleInput) : List Ev :=
  match inp.fetchErrorAfter with
  | none => [Ev.sessionEnd]
  | some _ => []

/-- One poll cycle of `readEmailsBySubject`.

Control flow mirrors the source: connection error → `reject`; `openBox`
error → `reject`; search error → `reject`; empty search results →
`imap.end(); resolve()`; all results already processed → test alert when
`isManualCheck`, then `imap.end(); resolve()`; otherwise one notification
per new message, fetch, and on stream `end` → `imap.end(); resolve()` or on
stream `error` → `reject`. `imap.end()` appears only at its three call
sites. The per-message ledger add runs in the synchronous stream phase; the
parser-callback events run in the deferred phase. -/
def runCycle (inp : CycleInput) (ledger : List String) : CycleResult :=
  if !inp.connectOk then ⟨.error .connErr, [], ledger⟩
  else if !inp.openBoxOk then ⟨.error .openBoxErr, [], ledger⟩
  else if !inp.searchOk then ⟨.error .searchErr, [], ledger⟩
  else if inp.searchResults.isEmpty then ⟨.ok (), [Ev.sessionEnd], ledger⟩
  else
    let newEmails := newEmailsOf inp.searchResults ledger
    if newEmails.isEmpty then
      ⟨.ok (), (if inp.manual then [Ev.notify] else []) ++ [Ev.sessionEnd], ledger⟩
    else
      let delivered := deliveredOf inp newEmails
      let notif : List Ev := newEmails.map fun _ => Ev.notify
      let syncPhase := delivered.flatMap syncEvents
      let deferredPhase := delivered.flatMap fun uid => deferredEvents uid (inp.msgData uid)
      let ledger' := delivered.foldl (fun l uid => setAdd l (toString uid)) ledger
      match inp.fetchErrorAfter with
      | none => ⟨.ok (), notif ++ syncPhase ++ [Ev.sessionEnd] ++ deferredPhase, ledger'⟩
      | some _ => ⟨.error .fetchErr, notif ++ syncPhase ++ deferredPhase, ledger'⟩

/-- A sequence of poll cycles (the spec's single-threaded scheduling: cycles
run to completion in order). Returns the final ledger and the concatenated
lifetime event trace. -/
def runCycles (cs : List CycleInput) (ledger : List String) : List String × List Ev :=
  match cs with
  | [] => (ledger, [])
  | c :: rest =>
    ((runCycles rest (runCycle c ledger).processed).1,
      (runCycle c ledger).events ++ (runCycles rest (runCycle c ledger).processed).2)

/-- `a` occurs in `l` and `b` occurs strictly after the first occurrence of
`a` — the trace-order "precedes" used for the ordering claims. -/
def evBefore (l : List Ev) (a b : Ev) : Bool :=
  match l with
  | [] => false
  | x :: xs => if x = a then xs.contains b else evBefore xs a b

/-! ### Monitoring state and control surface -/

/-- The mutable state of `EmailService`: `isMonitoring`, the armed interval
timer (`intervalId`), and the `processedEmails` ledger. -/
structure ServiceState where
  isMonitoring : Bool
  intervalId : Option Nat
  processedEmails : List String
deriving DecidableEq, Repr

/-- State at module init: not monitoring, no timer, empty ledger. -/
def initialState : ServiceState :=
  ⟨false, none, []⟩

/-- `startEmailMonitoring`: returns early when already monitoring; otherwise
sets `isMonitoring`, runs an initial check, and arms the interval timer
(`timer` is the fresh handle `setInterval` returns). -/
def startEmailMonitoring (s : ServiceState) (timer : Nat) : ServiceState :=
  if s.isMonitoring then s
  else { s with isMonitoring := true, intervalId := some timer }

/-- `stopEmailMonitoring`: returns early when not monitoring; otherwise
clears `isMonitoring` and, if a timer is armed, clears it and nulls
`intervalId`. -/
def stopEmailMonitoring (s : ServiceState) : ServiceState :=
  if !s.isMonitoring then s
  else { s with isMonitoring := false,
                intervalId := if s.intervalId.isSome then none else s.intervalId }

/-- A control-surface call sequence on the monitoring state. -/
inductive MonOp where
  | start : Nat → MonOp
  | stop : MonOp
deriving DecidableEq, Repr

/-- Apply a sequence of start/stop calls. -/
def applyOps (ops : List MonOp) (s : ServiceState) : ServiceState :=
  match ops with
  | [] => s
  | .start t :: rest => applyOps rest (startEmailMonitoring s t)
  | .stop :: rest => applyOps rest (stopEmailMonitoring s)

/-- `readEmailsBySubject` as a method on the service state: only
`processedEmails` is read and written; `isMonitoring` and `intervalId` are
untouched. -/
def readEmailsBySubjectS (inp : CycleInput) (s : ServiceState) :
    CycleResult × ServiceState :=
  let r := runCycle inp s.processedEmails
  (r, { s with processedEmails := r.processed })

/-- `POST /read-emails` (`AppController.readEmails`): runs one cycle with the
manual flag forced to `true`, catches any rejection, and reports the outcome
in-band as a message string. -/
def readEmailsEndpoint (inp : CycleInput) (s : ServiceState) :
    String × ServiceState :=
  let (r, s') := readEmailsBySubjectS { inp with manual := true } s
  match r.outcome with
  | .ok _ =>
    ("Successfully processed emails with subject: \x22read emails from this subject line\x22", s')
  | .error _ => ("Error reading emails", s')

/-- A sample parsed message for concrete cycle runs. -/
def sampleParsed : ParsedMessage :=
  ⟨some "a@b.c", none, some "read emails from this subject line", none, some "body", none⟩

/-- A sample classification verdict for concrete cycle runs. -/
def sampleClassification : Classification :=
  ⟨"system-generated", 92, "automated template", ["no personal tone"], []⟩

/-- A scheduled cycle that finds one new message (uid 5), parses and
classifies it successfully, and completes its fetch stream. -/
def singleMsgCycle : CycleInput :=
  ⟨false, true, true, true, [5], fun _ => ⟨some sampleParsed, some sampleClassification⟩, none⟩

/-- A cycle whose search returns uid 3, which it parses and classifies
successfully; run twice in a row it exercises the dedup ledger. -/
def repeatCycle : CycleInput :=
  ⟨false, true, true, true, [3], fun _ => ⟨some sampleParsed, some sampleClassification⟩, none⟩

/-! ## Helper lemmas about the cycle trace -/

theorem mem_syncEvents_iff {e : Ev} {u : Nat} :
    e ∈ syncEvents u ↔ e = .fetchMsg u ∨ e = .ledgerAdd u := by
  simp [syncEvents]

theorem mem_deferredEvents {e : Ev} {u : Nat} {d : MsgData}
    (h : e ∈ deferredEvents u d) :
    e = .parseErr u ∨ e = .parseMsg u ∨ e = .renderHeader u ∨ e = .classify u ∨
      e = .renderClassification u ∨ e = .renderClassError u := by
  unfold deferredEvents at h
  rcases hp : d.parseOutcome with _ | p
  · rw [hp] at h; simp at h; simp [h]
  · rw [hp] at h
    rcases hc : d.classifyOutcome with _ | c <;> rw [hc] at h <;> simp at h <;> tauto

theorem sessionEnd_not_mem_sync (D : List Nat) :
    Ev.sessionEnd ∉ D.flatMap syncEvents := by
  simp [List.mem_flatMap, syncEvents]

theorem sessionEnd_not_mem_deferredEvents (u : Nat) (d : MsgData) :
    Ev.sessionEnd ∉ deferredEvents u d := by
  intro hm
  rcases mem_deferredEvents hm with h | h | h | h | h | h <;> simp_all

theorem sessionEnd_not_mem_deferred (D : List Nat) (f : Nat → MsgData) :
    Ev.sessionEnd ∉ D.flatMap fun u => deferredEvents u (f u) := by
  intro h
  rw [List.mem_flatMap] at h
  obtain ⟨u, _, hm⟩ := h
  exact sessionEnd_not_mem_deferredEvents u (f u) hm

theorem mem_midEvents {inp : CycleInput} {e : Ev} (h : e ∈ midEvents inp) :
    e = Ev.sessionEnd := by
  unfold midEvents at h
  cases hf : inp.fetchErrorAfter <;> rw [hf] at h <;> simp_all

theorem mem_newEmailsOf {uid : Nat} {results : List Nat} {ledger : List String} :
    uid ∈ newEmailsOf results ledger ↔ uid ∈ results ∧ toString uid ∉ ledger := by
  simp [newEmailsOf]

theorem delivered_subset_newEmails (inp : CycleInput) (ne : List Nat) :
    deliveredOf inp ne ⊆ ne := by
  unfold deliveredOf
  cases inp.fetchErrorAfter with
  | none => exact fun _ h => h
  | some k => exact fun _ h => List.mem_of_mem_take h

theorem delivered_nodup (inp : CycleInput) (ne : List Nat) (h : ne.Nodup) :
    (deliveredOf inp ne).Nodup := by
  unfold deliveredOf
  cases inp.fetchErrorAfter with
  | none => exact h
  | some k => exact h.sublist (List.take_sublist k ne)

theorem mem_setAdd_of_mem {l : List String} {s x : String} (h : s ∈ l) :
    s ∈ setAdd l x := by
  unfold setAdd
  split <;> simp [h]

theorem mem_setAdd_self (l : List String) (x : String) : x ∈ setAdd l x := by
  unfold setAdd
  split <;> simp_all

theorem mem_foldl_setAdd (D : List Nat) (l : List String) (s : String) (h : s ∈ l) :
    s ∈ D.foldl (fun acc u => setAdd acc (toString u)) l := by
  induction D generalizing l with
  | nil => exact h
  | cons v D' ih => exact ih _ (mem_setAdd_of_mem h)

theorem self_mem_foldl_setAdd (D : List Nat) (l : List String) (u : Nat) (h : u ∈ D) :
    toString u ∈ D.foldl (fun acc v => setAdd acc (toString v)) l := by
  induction D generalizing l with
  | nil => cases h
  | cons v D' ih =>
    rcases List.mem_cons.mp h with rfl | hm
    · exact mem_foldl_setAdd D' _ _ (mem_setAdd_self l (toString u))
    · exact ih _ hm

theorem ledgerAdd_mem_sync_flat_iff {u : Nat} {D : List Nat} :
    Ev.ledgerAdd u ∈ D.flatMap syncEvents ↔ u ∈ D := by
  simp [List.mem_flatMap, syncEvents, eq_comm]

theorem fetchMsg_mem_sync_flat_iff {u : Nat} {D : List Nat} :
    Ev.fetchMsg u ∈ D.flatMap syncEvents ↔ u ∈ D := by
  simp [List.mem_flatMap, syncEvents, eq_comm]

theorem classify_not_mem_sync_flat (u : Nat) (D : List Nat) :
    Ev.classify u ∉ D.flatMap syncEvents := by
  simp [List.mem_flatMap, syncEvents]

theorem parseMsg_not_mem_sync_flat (u : Nat) (D : List Nat) :
    Ev.parseMsg u ∉ D.flatMap syncEvents := by
  simp [List.mem_flatMap, syncEvents]

theorem ledgerAdd_not_mem_deferredEvents (u v : Nat) (d : MsgData) :
    Ev.ledgerAdd u ∉ deferredEvents v d := by
  intro h
  rcases mem_deferredEvents h with h | h | h | h | h | h <;> simp_all

theorem fetchMsg_not_mem_deferredEvents (u v : Nat) (d : MsgData) :
    Ev.fetchMsg u ∉ deferredEvents v d := by
  intro h
  rcases mem_deferredEvents h with h | h | h | h | h | h <;> simp_all

theorem parseMsg_eq_of_mem_deferredEvents {u v : Nat} {d : MsgData}
    (h : Ev.parseMsg u ∈ deferredEvents v d) : u = v := by
  rcases mem_deferredEvents h with h | h | h | h | h | h <;> simp_all

theorem classify_eq_of_mem_deferredEvents {u v : Nat} {d : MsgData}
    (h : Ev.classify u ∈ deferredEvents v d) : u = v := by
  rcases mem_deferredEvents h with h | h | h | h | h | h <;> simp_all

theorem deferredEvents_some_some {u : Nat} {d : MsgData} {p : ParsedMessage}
    {cl : Classification} (hp : d.parseOutcome = some p)
    (hc : d.classifyOutcome = some cl) :
    deferredEvents u d =
      [Ev.parseMsg u, Ev.renderHeader u, Ev.classify u, Ev.renderClassification u] := by
  rcases d with ⟨po, co⟩
  cases po <;> cases co <;> simp_all [deferredEvents]

theorem evBefore_of_split {l1 l2 : List Ev} (a b : Ev) (h1 : a ∉ l1) (h2 : b ∈ l2) :
    evBefore (l1 ++ a :: l2) a b = true := by
  induction l1 with
  | nil =>
    simp only [List.nil_append, evBefore, if_pos rfl]
    exact List.elem_iff.mpr h2
  | cons x xs ih =>
    have hx : ¬ x = a := fun e => h1 (e ▸ List.mem_cons_self x xs)
    simpa [evBefore, hx] using ih fun hm => h1 (List.mem_cons_of_mem _ hm)

/-- The shape of a fetch-branch cycle: one notification per new message,
then the stream phase (delivery and ledger add per message), `imap.end` on
stream completion, then the deferred parser-callback phase; the ledger is
extended with every delivered uid. -/
theorem runCycle_fetch_spec (inp : CycleInput) (ledger : List String)
    (hc : inp.connectOk = true) (ho : inp.openBoxOk = true)
    (hs : inp.searchOk = true)
    (hne : newEmailsOf inp.searchResults ledger ≠ []) :
    (runCycle inp ledger).events =
      ((newEmailsOf inp.searchResults ledger).map fun _ => Ev.notify) ++
        (deliveredOf inp (newEmailsOf inp.searchResults ledger)).flatMap syncEvents ++
        midEvents inp ++
        (deliveredOf inp (newEmailsOf inp.searchResults ledger)).flatMap
          (fun u => deferredEvents u (inp.msgData u)) ∧
    (runCycle inp ledger).processed =
      (deliveredOf inp (newEmailsOf inp.searchResults ledger)).foldl
        (fun l u => setAdd l (toString u)) ledger := by
  have hse : inp.searchResults.isEmpty = false := by
    cases hsr : inp.searchResults with
    | nil => exact absurd (by simp [newEmailsOf, hsr]) hne
    | cons x xs => simp
  have hne' : (newEmailsOf inp.searchResults ledger).isEmpty = false := by
    cases hx : newEmailsOf inp.searchResults ledger with
    | nil => exact absurd hx hne
    | cons x xs => simp
  cases hf : inp.fetchErrorAfter with
  | none =>
    constructor <;>
      simp [runCycle, midEvents, deliveredOf, hc, ho, hs, hse, hne', hf]
  | some k =>
    constructor <;>
      simp [runCycle, midEvents, deliveredOf, hc, ho, hs, hse, hne', hf]

/-- Branch classification of a cycle: either no fetch happened (events among
`notify`/`sessionEnd` only, ledger unchanged) or the fetch-branch shape. -/
theorem runCycle_cases (inp : CycleInput) (ledger : List String) :
    (((runCycle inp ledger).events = [] ∨
      (runCycle inp ledger).events = [Ev.sessionEnd] ∨
      (runCycle inp ledger).events = [Ev.notify, Ev.sessionEnd]) ∧
      (runCycle inp ledger).processed = ledger) ∨
    (inp.connectOk = true ∧ inp.openBoxOk = true ∧ inp.searchOk = true ∧
      newEmailsOf inp.searchResults ledger ≠ []) := by
  cases hcon : inp.connectOk with
  | false => exact Or.inl ⟨Or.inl (by simp [runCycle, hcon]), by simp [runCycle, hcon]⟩
  | true =>
  cases hob : inp.openBoxOk with
  | false => exact Or.inl ⟨Or.inl (by simp [runCycle, hcon, hob]), by simp [runCycle, hcon, hob]⟩
  | true =>
  cases hs : inp.searchOk with
  | false =>
    exact Or.inl ⟨Or.inl (by simp [runCycle, hcon, hob, hs]), by simp [runCycle, hcon, hob, hs]⟩
  | true =>
  cases hse : inp.searchResults.isEmpty with
  | true =>
    exact Or.inl ⟨Or.inr (Or.inl (by simp [runCycle, hcon, hob, hs, hse])),
      by simp [runCycle, hcon, hob, hs, hse]⟩
  | false =>
  cases hne : (newEmailsOf inp.searchResults ledger).isEmpty with
  | true =>
    cases hm : inp.manual with
    | false =>
      exact Or.inl ⟨Or.inr (Or.inl (by simp [runCycle, hcon, hob, hs, hse, hne, hm])),
        by simp [runCycle, hcon, hob, hs, hse, hne, hm]⟩
    | true =>
      exact Or.inl ⟨Or.inr (Or.inr (by simp [runCycle, hcon, hob, hs, hse, hne, hm])),
        by simp [runCycle, hcon, hob, hs, hse, hne, hm]⟩
  | false =>
    exact Or.inr ⟨rfl, rfl, rfl, by simpa [List.isEmpty_iff] using hne⟩

/-- Traceability of uid-bearing events: a delivery, classification or ledger
add for `uid` can only occur when `uid` is among the delivered messages. -/
theorem runCycle_event_delivered {inp : CycleInput} {ledger : List String} {uid : Nat}
    (h : Ev.fetchMsg uid ∈ (runCycle inp ledger).events ∨
      Ev.classify uid ∈ (runCycle inp ledger).events ∨
      Ev.ledgerAdd uid ∈ (runCycle inp ledger).events) :
    uid ∈ deliveredOf inp (newEmailsOf inp.searchResults ledger) := by
  rcases runCycle_cases inp ledger with ⟨hev, _⟩ | ⟨hc, ho, hs, hne⟩
  · rcases hev with he | he | he <;> rw [he] at h <;>
      rcases h with h | h | h <;> simp_all
  · rw [(runCycle_fetch_spec inp ledger hc ho hs hne).1] at h
    rcases h with h | h | h <;>
      simp only [List.mem_append] at h <;>
      rcases h with ((h | h) | h) | h
    · simp at h
    · exact fetchMsg_mem_sync_flat_iff.mp h
    · exact absurd (mem_midEvents h) (by simp)
    · obtain ⟨v, hv, hm⟩ := List.mem_flatMap.mp h
      exact absurd hm (fetchMsg_not_mem_deferredEvents uid v _)
    · simp at h
    · exact absurd h (classify_not_mem_sync_flat uid _)
    · exact absurd (mem_midEvents h) (by simp)
    · obtain ⟨v, hv, hm⟩ := List.mem_flatMap.mp h
      exact (classify_eq_of_mem_deferredEvents hm) ▸ hv
    · simp at h
    · exact ledgerAdd_mem_sync_flat_iff.mp h
    · exact absurd (mem_midEvents h) (by simp)
    · obtain ⟨v, hv, hm⟩ := List.mem_flatMap.mp h
      exact absurd hm (ledgerAdd_not_mem_deferredEvents uid v _)

theorem evBefore_append_left (l1 l2 : List Ev) (a b : Ev) (h : a ∉ l1) :
    evBefore (l1 ++ l2) a b = evBefore l2 a b := by
  induction l1 with
  | nil => rfl
  | cons x xs ih =>
    have hx : ¬ x = a := fun e => h (e ▸ List.mem_cons_self x xs)
    rw [List.cons_append]
    simp only [evBefore, if_neg hx]
    exact ih fun hm => h (List.mem_cons_of_mem _ hm)

theorem evBefore_cons_ne (x : Ev) (l : List Ev) (a b : Ev) (h : ¬ x = a) :
    evBefore (x :: l) a b = evBefore l a b := by
  simp [evBefore, h]

theorem evBefore_cons_self (a b : Ev) (l : List Ev) :
    evBefore (a :: l) a b = l.contains b := by
  simp [evBefore]

theorem parseMsg_not_mem_deferred_flat {u : Nat} {D : List Nat} {f : Nat → MsgData}
    (h : u ∉ D) : Ev.parseMsg u ∉ D.flatMap fun v => deferredEvents v (f v) := by
  intro hm
  obtain ⟨v, hv, hmm⟩ := List.mem_flatMap.mp hm
  exact h ((parseMsg_eq_of_mem_deferredEvents hmm) ▸ hv)

theorem classify_not_mem_deferred_flat {u : Nat} {D : List Nat} {f : Nat → MsgData}
    (h : u ∉ D) : Ev.classify u ∉ D.flatMap fun v => deferredEvents v (f v) := by
  intro hm
  obtain ⟨v, hv, hmm⟩ := List.mem_flatMap.mp hm
  exact h ((classify_eq_of_mem_deferredEvents hmm) ▸ hv)

theorem count_ledgerAdd_sync_flat (D : List Nat) (uid : Nat) (h : D.Nodup) :
    (D.flatMap syncEvents).count (Ev.ledgerAdd uid) = if uid ∈ D then 1 else 0 := by
  induction D with
  | nil => simp
  | cons v D' ih =>
    rw [List.flatMap_cons, List.count_append, ih h.of_cons]
    have hvD : v ∉ D' := (List.nodup_cons.mp h).1
    by_cases huv : uid = v
    · subst huv
      simp [syncEvents, List.count_cons, hvD]
    · simp [syncEvents, List.count_cons, huv, List.mem_cons]

theorem runCycle_processed_mono (inp : CycleInput) (ledger : List String) (s : String)
    (h : s ∈ ledger) : s ∈ (runCycle inp ledger).processed := by
  rcases runCycle_cases inp ledger with ⟨_, hp⟩ | ⟨hc, ho, hs, hne⟩
  · rw [hp]; exact h
  · rw [(runCycle_fetch_spec inp ledger hc ho hs hne).2]
    exact mem_foldl_setAdd _ _ _ h

theorem ledgerAdd_implies_processed (inp : CycleInput) (ledger : List String) (uid : Nat)
    (h : Ev.ledgerAdd uid ∈ (runCycle inp ledger).events) :
    toString uid ∈ (runCycle inp ledger).processed := by
  have hdel := runCycle_event_delivered (Or.inr (Or.inr h))
  rcases runCycle_cases inp ledger with ⟨hev, _⟩ | ⟨hc, ho, hs, hne⟩
  · rcases hev with he | he | he <;> rw [he] at h <;> simp_all
  · rw [(runCycle_fetch_spec inp ledger hc ho hs hne).2]
    exact self_mem_foldl_setAdd _ _ _ hdel

theorem ledgerAdd_count_le_one (inp : CycleInput) (ledger : List String) (uid : Nat)
    (hnd : inp.searchResults.Nodup) :
    (runCycle inp ledger).events.count (Ev.ledgerAdd uid) ≤ 1 := by
  rcases runCycle_cases inp ledger with ⟨hev, _⟩ | ⟨hc, ho, hs, hne⟩
  · rcases hev with he | he | he <;> rw [he] <;> simp [List.count_cons]
  · rw [(runCycle_fetch_spec inp ledger hc ho hs hne).1]
    have hDnd : (deliveredOf inp (newEmailsOf inp.searchResults ledger)).Nodup :=
      delivered_nodup _ _ (hnd.filter _)
    rw [List.count_append, List.count_append, List.count_append,
      count_ledgerAdd_sync_flat _ _ hDnd]
    have c1 : ((newEmailsOf inp.searchResults ledger).map fun _ => Ev.notify).count
        (Ev.ledgerAdd uid) = 0 :=
      List.count_eq_zero.mpr (by simp)
    have c3 : (midEvents inp).count (Ev.ledgerAdd uid) = 0 :=
      List.count_eq_zero.mpr fun hm => by have := mem_midEvents hm; simp_all
    have c4 : ((deliveredOf inp (newEmailsOf inp.searchResults ledger)).flatMap
        fun u => deferredEvents u (inp.msgData u)).count (Ev.ledgerAdd uid) = 0 := by
      refine List.count_eq_zero.mpr fun hm => ?_
      obtain ⟨v, hv, hmm⟩ := List.mem_flatMap.mp hm
      exact ledgerAdd_not_mem_deferredEvents uid v _ hmm
    rw [c1, c3, c4]
    split <;> omega

theorem processed_blocks_events (inp : CycleInput) (ledger : List String) (uid : Nat)
    (h : toString uid ∈ ledger) :
    Ev.fetchMsg uid ∉ (runCycle inp ledger).events ∧
    Ev.classify uid ∉ (runCycle inp ledger).events ∧
    Ev.ledgerAdd uid ∉ (runCycle inp ledger).events := by
  have hnotdel : uid ∉ deliveredOf inp (newEmailsOf inp.searchResults ledger) := by
    intro hdel
    exact (mem_newEmailsOf.mp (delivered_subset_newEmails inp _ hdel)).2 h
  exact ⟨fun he => hnotdel (runCycle_event_delivered (Or.inl he)),
    fun he => hnotdel (runCycle_event_delivered (Or.inr (Or.inl he))),
    fun he => hnotdel (runCycle_event_delivered (Or.inr (Or.inr he)))⟩

theorem runCycles_fst_mono (cs : List CycleInput) (ledger : List String) (s : String)
    (h : s ∈ ledger) : s ∈ (runCycles cs ledger).1 := by
  induction cs generalizing ledger with
  | nil => exact h
  | cons c rest ih => exact ih _ (runCycle_processed_mono c ledger s h)

theorem ledgerAdd_in_trace_implies_fst (cs : List CycleInput) (ledger : List String)
    (uid : Nat) (h : Ev.ledgerAdd uid ∈ (runCycles cs ledger).2) :
    toString uid ∈ (runCycles cs ledger).1 := by
  induction cs generalizing ledger with
  | nil => simp [runCycles] at h
  | cons c rest ih =>
    simp only [runCycles, List.mem_append] at h
    rcases h with h | h
    · exact runCycles_fst_mono rest _ _ (ledgerAdd_implies_processed c ledger uid h)
    · exact ih _ h

theorem lifetime_count_le (cs : List CycleInput) (ledger : List String) (uid : Nat)
    (hnd : ∀ c ∈ cs, c.searchResults.Nodup) :
    (runCycles cs ledger).2.count (Ev.ledgerAdd uid) ≤
      if toString uid ∈ ledger then 0 else 1 := by
  induction cs generalizing ledger with
  | nil => simp [runCycles]
  | cons c rest ih =>
    have hc : c.searchResults.Nodup := hnd c (by simp)
    have hrest : ∀ c' ∈ rest, c'.searchResults.Nodup := fun c' hm => hnd c' (by simp [hm])
    simp only [runCycles, List.count_append]
    by_cases hmem : toString uid ∈ ledger
    · have h0 : (runCycle c ledger).events.count (Ev.ledgerAdd uid) = 0 :=
        List.count_eq_zero.mpr (processed_blocks_events c ledger uid hmem).2.2
      have h1 : toString uid ∈ (runCycle c ledger).processed :=
        runCycle_processed_mono _ _ _ hmem
      have h2 := ih ((runCycle c ledger).processed) hrest
      rw [if_pos h1] at h2
      rw [if_pos hmem, h0]
      omega
    · rw [if_neg hmem]
      by_cases hadd : Ev.ledgerAdd uid ∈ (runCycle c ledger).events
      · have hle := ledgerAdd_count_le_one c ledger uid hc
        have h1 : toString uid ∈ (runCycle c ledger).processed :=
          ledgerAdd_implies_processed _ _ _ hadd
        have h2 := ih ((runCycle c ledger).processed) hrest
        rw [if_pos h1] at h2
        omega
      · have h0 : (runCycle c ledger).events.count (Ev.ledgerAdd uid) = 0 :=
          List.count_eq_zero.mpr hadd
        have h2 := ih ((runCycle c ledger).processed) hrest
        have h3 : (if toString uid ∈ (runCycle c ledger).processed then 0 else 1) ≤ 1 := by
          split <;> omega
        omega

/-! ## Theorems -/

/-- C1 counterexample: a cycle in which opening the mailbox fails rejects
without ever attempting `imap.end`, so the transport session is leaked on
that exit path, refuting "the close operation is attempted on every exit
path of the cycle". -/
theorem openBox_error_skips_sessionEnd :
    (runCycle ⟨false, true, false, true, [7], fun _ => ⟨none, none⟩, none⟩ []).outcome =
        .error .openBoxErr ∧
    Ev.sessionEnd ∉
      (runCycle ⟨false, true, false, true, [7], fun _ => ⟨none, none⟩, none⟩ []).events := by
  constructor
  · rfl
  · decide

/-- C1 amended: `imap.end` is attempted exactly on the exit paths where the
cycle resolves (empty search, all results already processed, fetch stream
completed); on every rejecting exit path — connection error, mailbox-open
error, search error, fetch-stream error — the cycle rejects without
attempting `imap.end`, so the session can be leaked on failure. -/
theorem sessionEnd_iff_cycle_resolves (inp : CycleInput) (ledger : List String) :
    Ev.sessionEnd ∈ (runCycle inp ledger).events ↔
      (runCycle inp ledger).outcome = Except.ok () := by
  cases hcon : inp.connectOk with
  | false => simp [runCycle, hcon]
  | true =>
  cases hob : inp.openBoxOk with
  | false => simp [runCycle, hcon, hob]
  | true =>
  cases hs : inp.searchOk with
  | false => simp [runCycle, hcon, hob, hs]
  | true =>
  cases hse : inp.searchResults.isEmpty with
  | true => simp [runCycle, hcon, hob, hs, hse]
  | false =>
  cases hne : (newEmailsOf inp.searchResults ledger).isEmpty with
  | true =>
    cases hm : inp.manual <;> simp [runCycle, hcon, hob, hs, hse, hne, hm]
  | false =>
  cases hf : inp.fetchErrorAfter with
  | none => simp [runCycle, hcon, hob, hs, hse, hne, hf]
  | some k =>
    simp [runCycle, hcon, hob, hs, hse, hne, hf, syncEvents,
      sessionEnd_not_mem_deferredEvents]

/-- C2 counterexample: a manual cycle whose search returns zero handles
fires the Notifier zero times, not once — the manual test-alert lives only
in the all-already-processed branch, refuting "invoked exactly once when
the manual flag is true". -/
theorem manual_empty_search_no_testalert :
    (⟨true, true, true, true, [], fun _ => ⟨none, none⟩, none⟩ : CycleInput).manual = true ∧
    (runCycle ⟨true, true, true, true, [], fun _ => ⟨none, none⟩, none⟩ []).events.count
        Ev.notify = 0 := by
  constructor
  · rfl
  · decide

/-- C2 amended: in every cycle in which the mailbox search returns zero
handles, the Notifier is not invoked at all — regardless of the manual
flag — and the cycle completes without error. (The manual test-alert fires
only in the branch where the search returns handles that are all already
processed.) -/
theorem empty_search_silent (inp : CycleInput) (ledger : List String)
    (hc : inp.connectOk = true) (ho : inp.openBoxOk = true)
    (hs : inp.searchOk = true) (he : inp.searchResults = []) :
    (runCycle inp ledger).events.count Ev.notify = 0 ∧
    (runCycle inp ledger).outcome = Except.ok () := by
  constructor <;> simp [runCycle, hc, ho, hs, he]

/-- C2 witness: the amended property at a concrete manual cycle with an
empty search result. -/
theorem empty_search_silent_witness :
    (runCycle ⟨true, true, true, true, [], fun _ => ⟨some ⟨none, none, none, none, none, none⟩, none⟩, none⟩ []).events.count
        Ev.notify = 0 ∧
    (runCycle ⟨true, true, true, true, [], fun _ => ⟨some ⟨none, none, none, none, none, none⟩, none⟩, none⟩ []).outcome =
        Except.ok () :=
  empty_search_silent _ [] rfl rfl rfl rfl

/-- C3 counterexample: in a cycle that fetches, parses and classifies one
message (uid 5), the uid's ledger add and the classification-block render
both occur, but the render does not precede the ledger add — the
`attributes` handler adds the uid during the stream phase, before the
deferred parser callback runs — refuting "render always precedes adding the
message's unique identifier to ProcessedSet". -/
theorem ledgerAdd_precedes_render :
    Ev.renderClassification 5 ∈ (runCycle singleMsgCycle []).events ∧
    Ev.ledgerAdd 5 ∈ (runCycle singleMsgCycle []).events ∧
    evBefore (runCycle singleMsgCycle []).events
      (Ev.renderClassification 5) (Ev.ledgerAdd 5) = false := by
  refine ⟨by decide, by decide, by decide⟩

/-- C3 amended: within the processing of every fetched message that parses
and classifies successfully, parse precedes classify and classify precedes
the render of the classification block; but the message's unique identifier
is added to ProcessedSet when its `attributes` event fires, before the
deferred parser callback runs — so ledger-add precedes parse, classify and
render rather than coming last. -/
theorem message_pipeline_order (inp : CycleInput) (ledger : List String) (uid : Nat)
    (p : ParsedMessage) (cl : Classification)
    (hc : inp.connectOk = true) (ho : inp.openBoxOk = true) (hsk : inp.searchOk = true)
    (hnd : inp.searchResults.Nodup)
    (hdel : uid ∈ deliveredOf inp (newEmailsOf inp.searchResults ledger))
    (hp : (inp.msgData uid).parseOutcome = some p)
    (hcl : (inp.msgData uid).classifyOutcome = some cl) :
    evBefore (runCycle inp ledger).events (Ev.ledgerAdd uid) (Ev.parseMsg uid) = true ∧
    evBefore (runCycle inp ledger).events (Ev.parseMsg uid) (Ev.classify uid) = true ∧
    evBefore (runCycle inp ledger).events
      (Ev.classify uid) (Ev.renderClassification uid) = true := by
  have hneNil : newEmailsOf inp.searchResults ledger ≠ [] := by
    intro h0
    rw [h0] at hdel
    revert hdel
    unfold deliveredOf
    cases inp.fetchErrorAfter <;> simp
  have hDnd : (deliveredOf inp (newEmailsOf inp.searchResults ledger)).Nodup :=
    delivered_nodup _ _ (hnd.filter _)
  obtain ⟨d1, d2, hD⟩ := List.append_of_mem hdel
  have hd1 : uid ∉ d1 := by
    intro hmem
    exact List.disjoint_of_nodup_append (hD ▸ hDnd) hmem (List.mem_cons_self uid d2)
  have hd2 : uid ∉ d2 := by
    have h2 := (hD ▸ hDnd).of_append_right
    exact (List.nodup_cons.mp h2).1
  rw [(runCycle_fetch_spec inp ledger hc ho hsk hneNil).1, hD,
    List.flatMap_append, List.flatMap_cons, List.flatMap_append, List.flatMap_cons,
    deferredEvents_some_some hp hcl]
  simp only [syncEvents, List.append_assoc, List.cons_append, List.nil_append]
  have hmid : ∀ u : Nat, (Ev.parseMsg u ∉ midEvents inp) ∧ (Ev.classify u ∉ midEvents inp) :=
    fun u => ⟨fun hm => by have := mem_midEvents hm; simp_all,
      fun hm => by have := mem_midEvents hm; simp_all⟩
  refine ⟨?_, ?_, ?_⟩
  · rw [evBefore_append_left _ _ _ _ (by simp),
      evBefore_append_left _ _ _ _ (fun hm => hd1 (ledgerAdd_mem_sync_flat_iff.mp hm)),
      evBefore_cons_ne _ _ _ _ (by simp), evBefore_cons_self]
    exact List.elem_iff.mpr (by simp)
  · rw [evBefore_append_left _ _ _ _ (by simp),
      evBefore_append_left _ _ _ _ (parseMsg_not_mem_sync_flat uid d1),
      evBefore_cons_ne _ _ _ _ (by simp), evBefore_cons_ne _ _ _ _ (by simp),
      evBefore_append_left _ _ _ _ (parseMsg_not_mem_sync_flat uid d2),
      evBefore_append_left _ _ _ _ (hmid uid).1,
      evBefore_append_left _ _ _ _ (parseMsg_not_mem_deferred_flat hd1),
      evBefore_cons_self]
    exact List.elem_iff.mpr (by simp)
  · rw [evBefore_append_left _ _ _ _ (by simp),
      evBefore_append_left _ _ _ _ (classify_not_mem_sync_flat uid d1),
      evBefore_cons_ne _ _ _ _ (by simp), evBefore_cons_ne _ _ _ _ (by simp),
      evBefore_append_left _ _ _ _ (classify_not_mem_sync_flat uid d2),
      evBefore_append_left _ _ _ _ (hmid uid).2,
      evBefore_append_left _ _ _ _ (classify_not_mem_deferred_flat hd1),
      evBefore_cons_ne _ _ _ _ (by simp), evBefore_cons_ne _ _ _ _ (by simp),
      evBefore_cons_self]
    exact List.elem_iff.mpr (by simp)

/-- C3 witness: the amended ordering evaluated on the one-message cycle. -/
theorem message_pipeline_order_witness :
    evBefore (runCycle singleMsgCycle []).events (Ev.ledgerAdd 5) (Ev.parseMsg 5) = true ∧
    evBefore (runCycle singleMsgCycle []).events (Ev.parseMsg 5) (Ev.classify 5) = true ∧
    evBefore (runCycle singleMsgCycle []).events
      (Ev.classify 5) (Ev.renderClassification 5) = true :=
  message_pipeline_order singleMsgCycle [] 5 sampleParsed sampleClassification
    rfl rfl rfl (by decide) (by decide) rfl rfl

/-- C4: across a whole sequence of poll cycles starting from the empty
ProcessedSet, any uid's ledger add appears at most once in the lifetime
trace; a uid whose add occurred in a prefix of the run is in the
ProcessedSet after that prefix; and a uid already in the ProcessedSet at
the start of a later cycle is excluded from that cycle's new-message
partition and is neither fetched nor classified in it. -/
theorem processedSet_at_most_once (cs : List CycleInput) (uid : Nat)
    (hnd : ∀ c ∈ cs, c.searchResults.Nodup) :
    (runCycles cs []).2.count (Ev.ledgerAdd uid) ≤ 1 ∧
    (∀ cs1 : List CycleInput, Ev.ledgerAdd uid ∈ (runCycles cs1 []).2 →
      toString uid ∈ (runCycles cs1 []).1) ∧
    (∀ (cs1 : List CycleInput) (c : CycleInput) (cs2 : List CycleInput),
      cs = cs1 ++ c :: cs2 →
      toString uid ∈ (runCycles cs1 []).1 →
      uid ∉ newEmailsOf c.searchResults (runCycles cs1 []).1 ∧
      Ev.fetchMsg uid ∉ (runCycle c (runCycles cs1 []).1).events ∧
      Ev.classify uid ∉ (runCycle c (runCycles cs1 []).1).events) := by
  refine ⟨?_, ?_, ?_⟩
  · simpa using lifetime_count_le cs [] uid hnd
  · exact fun cs1 h => ledgerAdd_in_trace_implies_fst cs1 [] uid h
  · rintro cs1 c cs2 heq hmem
    have hb := processed_blocks_events c (runCycles cs1 []).1 uid hmem
    exact ⟨fun hne => (mem_newEmailsOf.mp hne).2 hmem, hb.1, hb.2.1⟩

/-- C4 witness: the same uid 3 searched in two successive cycles is added
once, lands in the ProcessedSet after the first cycle, and is excluded from
the second cycle's partition, fetch and classification. -/
theorem processedSet_at_most_once_witness :
    (runCycles [repeatCycle, repeatCycle] []).2.count (Ev.ledgerAdd 3) ≤ 1 ∧
    toString 3 ∈ (runCycles [repeatCycle] []).1 ∧
    (3 ∉ newEmailsOf repeatCycle.searchResults (runCycles [repeatCycle] []).1 ∧
      Ev.fetchMsg 3 ∉ (runCycle repeatCycle (runCycles [repeatCycle] []).1).events ∧
      Ev.classify 3 ∉ (runCycle repeatCycle (runCycles [repeatCycle] []).1).events) := by
  have h := processedSet_at_most_once [repeatCycle, repeatCycle] 3 (by decide)
  exact ⟨h.1, h.2.1 [repeatCycle] (by decide),
    h.2.2 [repeatCycle] repeatCycle [] rfl (by decide)⟩

/-- C5: the rendered report substitutes the exact literals on absence —
absent date renders "Unknown Date", absent subject renders "No Subject",
absent from or to renders "Unknown" — and the body is selected as the
(non-empty) plain text if present, else the (non-empty) rendered markup,
else the literal "No content available". -/
theorem render_substitution_literals (p : ParsedMessage) :
    (p.date = none → renderDateLine p = "Date: Unknown Date") ∧
    (p.subject = none → renderSubjectLine p = "Subject: No Subject") ∧
    (p.fromText = none → renderFromLine p = "From: Unknown") ∧
    (p.toText = none → renderToLine p = "To: Unknown") ∧
    (∀ t, p.text = some t → t ≠ "" → selectBody p = t) ∧
    (∀ m, jsTruthy p.text = false → p.html = some m → m ≠ "" → selectBody p = m) ∧
    (jsTruthy p.text = false → jsTruthy p.html = false →
      selectBody p = "No content available") := by
  refine ⟨fun h => ?_, fun h => ?_, fun h => ?_, fun h => ?_, fun t ht htne => ?_,
    fun m htx hm hmne => ?_, fun htx hhl => ?_⟩
  · simp [renderDateLine, jsOr, h]
  · simp [renderSubjectLine, jsOr, h]
  · simp [renderFromLine, jsOr, h]
  · simp [renderToLine, jsOr, h]
  · simp [selectBody, jsOr, ht, htne]
  · cases hx : p.text with
    | none => simp [selectBody, jsOr, hx, hm, hmne]
    | some t =>
      have : t = "" := by simpa [jsTruthy, hx] using htx
      simp [selectBody, jsOr, hx, this, hm, hmne]
  · cases hx : p.text with
    | none =>
      cases hh : p.html with
      | none => simp [selectBody, jsOr, hx, hh]
      | some m =>
        have : m = "" := by simpa [jsTruthy, hh] using hhl
        simp [selectBody, jsOr, hx, hh, this]
    | some t =>
      have ht : t = "" := by simpa [jsTruthy, hx] using htx
      cases hh : p.html with
      | none => simp [selectBody, jsOr, hx, hh, ht]
      | some m =>
        have : m = "" := by simpa [jsTruthy, hh] using hhl
        simp [selectBody, jsOr, hx, hh, ht, this]

/-- C5 witness: a fully absent message renders every substitution literal. -/
theorem render_substitution_literals_witness :
    renderDateLine ⟨none, none, none, none, none, none⟩ = "Date: Unknown Date" ∧
    renderSubjectLine ⟨none, none, none, none, none, none⟩ = "Subject: No Subject" ∧
    renderFromLine ⟨none, none, none, none, none, none⟩ = "From: Unknown" ∧
    renderToLine ⟨none, none, none, none, none, none⟩ = "To: Unknown" ∧
    selectBody ⟨none, none, none, none, some "hello", none⟩ = "hello" ∧
    selectBody ⟨none, none, none, none, none, some "<p>hi</p>"⟩ = "<p>hi</p>" ∧
    selectBody ⟨none, none, none, none, none, none⟩ = "No content available" := by
  refine ⟨(render_substitution_literals _).1 rfl,
    (render_substitution_literals _).2.1 rfl,
    (render_substitution_literals _).2.2.1 rfl,
    (render_substitution_literals _).2.2.2.1 rfl,
    (render_substitution_literals ⟨none, none, none, none, some "hello", none⟩).2.2.2.2.1
      "hello" rfl (by decide),
    (render_substitution_literals
        ⟨none, none, none, none, none, some "<p>hi</p>"⟩).2.2.2.2.2.1
      "<p>hi</p>" (by decide) rfl (by decide),
    (render_substitution_literals ⟨none, none, none, none, none, none⟩).2.2.2.2.2.2
      (by decide) (by decide)⟩

/-- C6: for confidence `c` in 0–100 the rendered band is "(High)" exactly on
[80,100], "(Medium)" exactly on [60,80), "(Low)" exactly on [0,60); 92, 75
and 40 band as High, Medium, Low; and the confidence line only reads the
stored `Classification` — the band is a pure function of the stored
confidence, so banding alters no stored data. -/
theorem confidence_banding (c : Nat) (hc : c ≤ 100) :
    (confidenceLabel c = "(High)" ↔ 80 ≤ c ∧ c ≤ 100) ∧
    (confidenceLabel c = "(Medium)" ↔ 60 ≤ c ∧ c < 80) ∧
    (confidenceLabel c = "(Low)" ↔ c < 60) ∧
    confidenceLabel 92 = "(High)" ∧
    confidenceLabel 75 = "(Medium)" ∧
    confidenceLabel 40 = "(Low)" ∧
    (∀ cl : Classification, renderConfidenceLine cl =
      "   Confidence: " ++ toString cl.confidence ++ "% " ++
        confidenceLabel cl.confidence) := by
  have hMH : ("(Medium)" : String) ≠ "(High)" := by decide
  have hLH : ("(Low)" : String) ≠ "(High)" := by decide
  have hHM : ("(High)" : String) ≠ "(Medium)" := by decide
  have hLM : ("(Low)" : String) ≠ "(Medium)" := by decide
  have hHL : ("(High)" : String) ≠ "(Low)" := by decide
  have hML : ("(Medium)" : String) ≠ "(Low)" := by decide
  refine ⟨?_, ?_, ?_, by decide, by decide, by decide, fun cl => rfl⟩ <;>
  · unfold confidenceLabel
    split_ifs with h1 h2 <;> simp_all <;> omega

/-- C6 witness: the banding facts evaluated at confidence 92. -/
theorem confidence_banding_witness :
    (confidenceLabel 92 = "(High)" ↔ 80 ≤ 92 ∧ 92 ≤ 100) ∧
    (confidenceLabel 92 = "(Medium)" ↔ 60 ≤ 92 ∧ 92 < 80) ∧
    (confidenceLabel 92 = "(Low)" ↔ 92 < 60) ∧
    confidenceLabel 92 = "(High)" ∧
    confidenceLabel 75 = "(Medium)" ∧
    confidenceLabel 40 = "(Low)" ∧
    (∀ cl : Classification, renderConfidenceLine cl =
      "   Confidence: " ++ toString cl.confidence ++ "% " ++
        confidenceLabel cl.confidence) :=
  confidence_banding 92 (by decide)

/-- C7: `testConnection` never raises (it returns a `Bool` in all cases,
`false` on a thrown request), returns `true` exactly when the response
carries a present, non-empty content field, and hence returns `false` when
the backend responds with the content field missing or empty. -/
theorem testConnection_false_on_empty_content (resp : ChatResponse) :
    (testConnection (.ok resp) = true ↔
      ∃ s, contentOf resp = some s ∧ s ≠ "") ∧
    (contentOf resp = none → testConnection (.ok resp) = false) ∧
    (contentOf resp = some "" → testConnection (.ok resp) = false) ∧
    (∀ e, testConnection (.error e) = false) := by
  refine ⟨?_, fun h => ?_, fun h => ?_, fun e => rfl⟩
  · cases h : contentOf resp with
    | none => simp [testConnection, jsTruthy, h]
    | some s => simp [testConnection, jsTruthy, h]
  · simp [testConnection, jsTruthy, h]
  · simp [testConnection, jsTruthy, h]

/-- C7 witness: a backend response with an empty content field yields
`false`; a non-empty one yields `true`. -/
theorem testConnection_false_on_empty_content_witness :
    testConnection (.ok ⟨[⟨some (some "")⟩]⟩) = false ∧
    testConnection (.ok ⟨[⟨some (some "Hello")⟩]⟩) = true :=
  ⟨(testConnection_false_on_empty_content ⟨[⟨some (some "")⟩]⟩).2.2.1 rfl,
    (testConnection_false_on_empty_content ⟨[⟨some (some "Hello")⟩]⟩).1.mpr
      ⟨"Hello", rfl, by decide⟩⟩

/-- C8 counterexample: an `OPENAI_API_KEY` that is present in the
environment but set to the empty string still makes initialization raise,
refuting "if it is present, initialization completes without raising". -/
theorem onModuleInit_empty_key_raises :
    some "" ≠ (none : Option String) ∧
    onModuleInit (some "") = .error "OPENAI_API_KEY is required" := by
  constructor
  · simp
  · rfl

/-- C8 amended: initialization raises exactly when `OPENAI_API_KEY` is
absent or set to the empty string, and completes without raising exactly
when it is present with a non-empty value. -/
theorem onModuleInit_key_check :
    onModuleInit none = .error "OPENAI_API_KEY is required" ∧
    (∀ s, s ≠ "" → onModuleInit (some s) = .ok ()) ∧
    (∀ s, onModuleInit (some s) = .ok () ↔ s ≠ "") := by
  refine ⟨rfl, fun s hs => ?_, fun s => ?_⟩
  · simp [onModuleInit, jsTruthy, hs]
  · by_cases hs : s = "" <;> simp [onModuleInit, jsTruthy, hs]

/-- C8 witness: a present, non-empty key initializes successfully, and the
absent key raises. -/
theorem onModuleInit_key_check_witness :
    onModuleInit none = .error "OPENAI_API_KEY is required" ∧
    onModuleInit (some "sk-test") = .ok () :=
  ⟨onModuleInit_key_check.1, onModuleInit_key_check.2.1 "sk-test" (by decide)⟩

/-- C9: the `/read-emails` manual invocation runs one cycle with the manual
flag forced to `true` and leaves the scheduler state untouched:
`isMonitoring` and `intervalId` are the same after the cycle as before it,
on every outcome (success or failure); only `processedEmails` may change. -/
theorem manual_cycle_preserves_scheduler_state (inp : CycleInput) (s : ServiceState) :
    (readEmailsEndpoint inp s).2.isMonitoring = s.isMonitoring ∧
    (readEmailsEndpoint inp s).2.intervalId = s.intervalId ∧
    (readEmailsBySubjectS inp s).2.isMonitoring = s.isMonitoring ∧
    (readEmailsBySubjectS inp s).2.intervalId = s.intervalId := by
  refine ⟨?_, ?_, rfl, rfl⟩ <;>
  · unfold readEmailsEndpoint readEmailsBySubjectS
    rcases h : (runCycle { inp with manual := true } s.processedEmails).outcome with _ | _ <;>
      simp [h]

/-- C10: `startEmailMonitoring` is a no-op when already monitoring,
`stopEmailMonitoring` is a no-op when not monitoring, and after any
sequence of start/stop calls from the initial state, `isMonitoring` holds
exactly when an interval timer is armed (`intervalId` is `some`). -/
theorem monitoring_idempotence_invariant :
    (∀ (s : ServiceState) (t : Nat), s.isMonitoring = true →
      startEmailMonitoring s t = s) ∧
    (∀ s : ServiceState, s.isMonitoring = false → stopEmailMonitoring s = s) ∧
    (∀ ops : List MonOp,
      ((applyOps ops initialState).isMonitoring = true ↔
        (applyOps ops initialState).intervalId.isSome = true)) := by
  have key : ∀ (ops : List MonOp) (s : ServiceState),
      (s.isMonitoring = true ↔ s.intervalId.isSome = true) →
      ((applyOps ops s).isMonitoring = true ↔
        (applyOps ops s).intervalId.isSome = true) := by
    intro ops
    induction ops with
    | nil => intro s hs; exact hs
    | cons op rest ih =>
      intro s hs
      cases op with
      | start t =>
        simp only [applyOps]
        apply ih
        by_cases hm : s.isMonitoring = true
        · simpa [startEmailMonitoring, hm] using hs
        · simp [startEmailMonitoring, hm]
      | stop =>
        simp only [applyOps]
        apply ih
        by_cases hm : s.isMonitoring = true
        · have h2 : s.intervalId.isSome = true := hs.mp hm
          simp [stopEmailMonitoring, hm, h2]
        · simpa [stopEmailMonitoring, hm] using hs
  refine ⟨fun s t hm => ?_, fun s hm => ?_, fun ops => key ops initialState (by simp [initialState])⟩
  · simp [startEmailMonitoring, hm]
  · simp [stopEmailMonitoring, hm]

/-- C10 witness: start twice then stop twice from the initial state; the
no-op laws and the invariant evaluated concretely. -/
theorem monitoring_idempotence_invariant_witness :
    startEmailMonitoring ⟨true, some 4, []⟩ 9 = ⟨true, some 4, []⟩ ∧
    stopEmailMonitoring ⟨false, none, []⟩ = ⟨false, none, []⟩ ∧
    ((applyOps [.start 1, .start 2, .stop, .stop] initialState).isMonitoring = true ↔
      (applyOps [.start 1, .start 2, .stop, .stop] initialState).intervalId.isSome = true) :=
  ⟨monitoring_idempotence_invariant.1 ⟨true, some 4, []⟩ 9 rfl,
    monitoring_idempotence_invariant.2.1 ⟨false, none, []⟩ rfl,
    monitoring_idempotence_invariant.2.2 [.start 1, .start 2, .stop, .stop]⟩

end EmailApp
